import Mathlib

/-!
Verification of the crawl-orchestration core of `scraper.py` (Otakudesuscrap).

The Python source is shallowly embedded: pure control flow becomes Lean
functions, the HTTP transport / HTML extraction (external collaborators per
the spec) become oracle parameters, the filesystem becomes an explicit
`Store` map, and Python exceptions become `Except` / `Option` values.
-/

set_option maxHeartbeats 1600000

namespace Scraper

/-! ### JSON values

`save_json` persists records with `json.dump(data, f, ensure_ascii=False,
indent=2)` and `run_all` reads them back with `json.loads`.  The record
values this program produces contain only strings, `None`, booleans, lists
and string-keyed dicts (every leaf comes from `get_text`/`get` or is `None`),
so the JSON value domain is embedded without numbers. -/

inductive Json where
  | null : Json
  | bool (b : Bool) : Json
  | str (s : String) : Json
  | arr (elems : List Json) : Json
  | obj (fields : List (String × Json)) : Json

/-- Whitespace characters skipped by the JSON reader. -/
def isWs (c : Char) : Bool := c = ' ' || c = '\n' || c = '\t' || c = '\r'

def skipWs : List Char → List Char
  | [] => []
  | c :: cs => if isWs c then skipWs cs else c :: cs

/-- Lower-case hex digit, as Python's `json` emits in `\u00xx` escapes. -/
def hexDigit (n : Nat) : Char :=
  if n < 10 then Char.ofNat (48 + n) else Char.ofNat (87 + n)

/-- Escaping of one character, following Python's `json` encoder with
`ensure_ascii=False`: `"` and `\` and the named control escapes, `\u00xx`
for the remaining control characters, everything else verbatim. -/
def escChar (c : Char) : List Char :=
  if c = '"' then ['\\', '"']
  else if c = '\\' then ['\\', '\\']
  else if c = '\n' then ['\\', 'n']
  else if c = '\t' then ['\\', 't']
  else if c = '\r' then ['\\', 'r']
  else if c = '\x08' then ['\\', 'b']
  else if c = '\x0c' then ['\\', 'f']
  else if c.toNat < 32 then
    ['\\', 'u', '0', '0', hexDigit (c.toNat / 16), hexDigit (c.toNat % 16)]
  else [c]

def escStr : List Char → List Char
  | [] => []
  | c :: cs => escChar c ++ escStr cs

/-- Newline plus the two-space-per-level indent emitted by `indent=2`. -/
def nlInd (lvl : Nat) : List Char := '\n' :: List.replicate (2 * lvl) ' '

mutual

/-- Serialization of one value at nesting level `lvl`, following
`json.dump(..., ensure_ascii=False, indent=2)`. -/
def dumpsV : Nat → Json → List Char
  | _, .null => ['n', 'u', 'l', 'l']
  | _, .bool true => ['t', 'r', 'u', 'e']
  | _, .bool false => ['f', 'a', 'l', 's', 'e']
  | _, .str s => '"' :: (escStr s.data ++ ['"'])
  | _, .arr [] => ['[', ']']
  | lvl, .arr (x :: xs) =>
      '[' :: (nlInd (lvl + 1) ++ dumpsV (lvl + 1) x ++ dumpsElems (lvl + 1) xs
        ++ nlInd lvl ++ [']'])
  | _, .obj [] => ['\x7b', '\x7d']
  | lvl, .obj (f :: fs) =>
      '\x7b' :: (nlInd (lvl + 1) ++ dumpsField (lvl + 1) f ++ dumpsFields (lvl + 1) fs
        ++ nlInd lvl ++ ['\x7d'])

/-- One `"key": value` pair. -/
def dumpsField : Nat → String × Json → List Char
  | lvl, (k, v) => '"' :: (escStr k.data ++ ['"', ':', ' '] ++ dumpsV lvl v)

/-- Second and later array elements, each preceded by `,` and a fresh line. -/
def dumpsElems : Nat → List Json → List Char
  | _, [] => []
  | lvl, x :: xs => ',' :: (nlInd lvl ++ dumpsV lvl x ++ dumpsElems lvl xs)

/-- Second and later object fields. -/
def dumpsFields : Nat → List (String × Json) → List Char
  | _, [] => []
  | lvl, f :: fs => ',' :: (nlInd lvl ++ dumpsField lvl f ++ dumpsFields lvl fs)

end

/-- Serialized form of a record, as written by `save_json`. -/
def dumps (j : Json) : String := ⟨dumpsV 0 j⟩

mutual

/-- Fuel measure used to run the reader: one unit per node visited. -/
def jsize : Json → Nat
  | .null => 1
  | .bool _ => 1
  | .str _ => 1
  | .arr l => 1 + jsizeL l
  | .obj l => 1 + jsizeP l

def jsizeL : List Json → Nat
  | [] => 0
  | x :: xs => jsize x + 1 + jsizeL xs

def jsizeP : List (String × Json) → Nat
  | [] => 0
  | f :: fs => jsize f.2 + 1 + jsizeP fs

end

def hexVal (c : Char) : Option Nat :=
  if 48 ≤ c.toNat ∧ c.toNat ≤ 57 then some (c.toNat - 48)
  else if 97 ≤ c.toNat ∧ c.toNat ≤ 102 then some (c.toNat - 87)
  else if 65 ≤ c.toNat ∧ c.toNat ≤ 70 then some (c.toNat - 55)
  else none

def decodeShortEsc (c : Char) : Option Char :=
  if c = '"' then some '"'
  else if c = '\\' then some '\\'
  else if c = '/' then some '/'
  else if c = 'n' then some '\n'
  else if c = 't' then some '\t'
  else if c = 'r' then some '\r'
  else if c = 'b' then some '\x08'
  else if c = 'f' then some '\x0c'
  else none

/-- String body reader (after the opening quote), handling the escapes the
serializer emits plus the standard short escapes; raw control characters are
rejected, as in Python's strict `json.loads`. -/
def parseStr : List Char → Option (List Char × List Char)
  | [] => none
  | c :: rest =>
      if c = '"' then some ([], rest)
      else if c = '\\' then
        match rest with
        | [] => none
        | e :: rest2 =>
            if e = 'u' then
              match rest2 with
              | h1 :: h2 :: h3 :: h4 :: rest3 => do
                  let v1 ← hexVal h1
                  let v2 ← hexVal h2
                  let v3 ← hexVal h3
                  let v4 ← hexVal h4
                  let n := ((v1 * 16 + v2) * 16 + v3) * 16 + v4
                  if n < 55296 then
                    let (s, r) ← parseStr rest3
                    some (Char.ofNat n :: s, r)
                  else none
              | _ => none
            else
              match decodeShortEsc e with
              | some c2 => do
                  let (s, r) ← parseStr rest2
                  some (c2 :: s, r)
              | none => none
      else if c.toNat < 32 then none
      else do
        let (s, r) ← parseStr rest
        some (c :: s, r)

mutual

/-- Recursive-descent JSON value reader modelling `json.loads`, with fuel. -/
def parseVal : Nat → List Char → Option (Json × List Char)
  | 0, _ => none
  | fuel + 1, cs => parseValCore fuel (skipWs cs)
termination_by fuel _ => (fuel, 0)

/-- Dispatch on the first significant character of a value. -/
def parseValCore : Nat → List Char → Option (Json × List Char)
  | _, 'n' :: 'u' :: 'l' :: 'l' :: rest => some (.null, rest)
  | _, 't' :: 'r' :: 'u' :: 'e' :: rest => some (.bool true, rest)
  | _, 'f' :: 'a' :: 'l' :: 's' :: 'e' :: rest => some (.bool false, rest)
  | _, '"' :: rest => do
      let (s, r) ← parseStr rest
      some (.str ⟨s⟩, r)
  | f, '[' :: rest => parseArrBody f (skipWs rest)
  | f, '\x7b' :: rest => parseObjBody f (skipWs rest)
  | _, _ => none
termination_by f _ => (f, 5)

/-- Array contents after the opening bracket. -/
def parseArrBody : Nat → List Char → Option (Json × List Char)
  | _, [] => none
  | f, c1 :: r =>
      if c1 = ']' then some (.arr [], r)
      else do
        let (v, r1) ← parseVal f (c1 :: r)
        let (vs, r2) ← parseElems f r1
        some (.arr (v :: vs), r2)
termination_by f _ => (f, 4)

/-- Object contents after the opening brace. -/
def parseObjBody : Nat → List Char → Option (Json × List Char)
  | _, '\x7d' :: r => some (.obj [], r)
  | f, '"' :: r => do
      let (k, r1) ← parseStr r
      parseObjColon f k (skipWs r1)
  | _, _ => none
termination_by f _ => (f, 4)

/-- First object field after its key: expect a colon, a value, more fields. -/
def parseObjColon : Nat → List Char → List Char → Option (Json × List Char)
  | f, k, ':' :: r2 => do
      let (v, r3) ← parseVal f r2
      let (fs, r4) ← parseFields f r3
      some (.obj ((⟨k⟩, v) :: fs), r4)
  | _, _, _ => none
termination_by f _ _ => (f, 3)

/-- After the first array element: either a comma or the closing bracket. -/
def parseElems : Nat → List Char → Option (List Json × List Char)
  | 0, _ => none
  | fuel + 1, cs => parseElemsCore fuel (skipWs cs)
termination_by fuel _ => (fuel, 0)

def parseElemsCore : Nat → List Char → Option (List Json × List Char)
  | _, ']' :: r => some ([], r)
  | f, ',' :: r => do
      let (v, r1) ← parseVal f r
      let (vs, r2) ← parseElems f r1
      some (v :: vs, r2)
  | _, _ => none
termination_by f _ => (f, 5)

/-- After the first object field: either a comma or the closing brace. -/
def parseFields : Nat → List Char → Option (List (String × Json) × List Char)
  | 0, _ => none
  | fuel + 1, cs => parseFieldsCore fuel (skipWs cs)
termination_by fuel _ => (fuel, 0)

def parseFieldsCore : Nat → List Char → Option (List (String × Json) × List Char)
  | _, '\x7d' :: r => some ([], r)
  | f, ',' :: r => parseFieldComma f (skipWs r)
  | _, _ => none
termination_by f _ => (f, 5)

def parseFieldComma : Nat → List Char → Option (List (String × Json) × List Char)
  | f, '"' :: r1 => do
      let (k, r2) ← parseStr r1
      parseFieldColon f k (skipWs r2)
  | _, _ => none
termination_by f _ => (f, 4)

def parseFieldColon : Nat → List Char → List Char → Option (List (String × Json) × List Char)
  | f, k, ':' :: r3 => do
      let (v, r4) ← parseVal f r3
      let (fs, r5) ← parseFields f r4
      some ((⟨k⟩, v) :: fs, r5)
  | _, _, _ => none
termination_by f _ _ => (f, 3)

end

/-- Model of `json.loads`: read one value, require only whitespace after it. -/
def loads (s : String) : Option Json :=
  match parseVal (s.data.length + 1) s.data with
  | some (j, rest) => if skipWs rest = [] then some j else none
  | none => none

/-! ### PageStore: `save_json` and reading records back -/

/-- Filesystem model: maps a path to the contents of the file there, when
one exists. -/
def Store := String → Option String

/-- Model of `save_json(data, filename, folder)`: serializes `data` (with
`ensure_ascii=False, indent=2`) and writes it at `folder + "/" + filename`,
unconditionally — there is no exists-check before the write. -/
def save_json (data : Json) (filename folder : String) (st : Store) : Store :=
  fun p => if p = folder ++ "/" ++ filename then some (dumps data) else st p

/-- Reading a persisted record back, as `run_all` does for `home.json` with
`json.loads(path.read_text())`: a missing file or unparsable contents count
as not found. -/
def load_record (st : Store) (filename folder : String) : Option Json :=
  match st (folder ++ "/" ++ filename) with
  | some content => loads content
  | none => none

/-- Model of an interruption during `save_json`: `open(path, "w")` truncates
the file immediately and `json.dump` then writes the serialized text left to
right, so an interruption after `written` characters leaves that prefix as
the whole file contents. -/
def save_json_interrupted (data : Json) (filename folder : String) (st : Store)
    (written : Nat) : Store :=
  fun p => if p = folder ++ "/" ++ filename
    then some (String.mk ((dumps data).data.take written)) else st p

/-- Store with one persisted record (serialized empty list) for the claims
about overwriting. -/
def cex_store : Store :=
  fun p => if p = "outputs/home/home.json" then some "[]" else none

def cex_store8 : Store :=
  fun p => if p = "outputs/anime/a.json" then some "[]" else none

/-! ### Headers loader (`load_headers`) -/

/-- Observable states of the `headers.txt` file: absent
(`FileNotFoundError`), unreadable (any other exception while opening or
reading), or present with the given text. -/
inductive HeadersFile where
  | absent
  | unreadable
  | content (text : String)

/-- The built-in `default_headers` list from `load_headers`. -/
def default_headers : List Json :=
  [Json.obj [
      ("User-Agent", Json.str "Mozilla/5.0 (Windows NT 10.0; Win64; x64) AppleWebKit/537.36 (KHTML, like Gecko) Chrome/122.0.0.0 Safari/537.36"),
      ("Accept", Json.str "text/html,application/xhtml+xml,application/xml;q=0.9,image/webp,*/*;q=0.8"),
      ("Accept-Language", Json.str "en-US,en;q=0.9"),
      ("Accept-Encoding", Json.str "gzip, deflate, br"),
      ("Connection", Json.str "keep-alive"),
      ("Upgrade-Insecure-Requests", Json.str "1"),
      ("Sec-Fetch-Dest", Json.str "document"),
      ("Sec-Fetch-Mode", Json.str "navigate"),
      ("Sec-Fetch-Site", Json.str "none"),
      ("Cache-Control", Json.str "max-age=0")],
   Json.obj [
      ("User-Agent", Json.str "Mozilla/5.0 (Macintosh; Intel Mac OS X 10_15_7) AppleWebKit/537.36 (KHTML, like Gecko) Chrome/122.0.0.0 Safari/537.36"),
      ("Accept", Json.str "text/html,application/xhtml+xml,application/xml;q=0.9,image/webp,*/*;q=0.8"),
      ("Accept-Language", Json.str "en-US,en;q=0.9"),
      ("Accept-Encoding", Json.str "gzip, deflate, br"),
      ("Connection", Json.str "keep-alive"),
      ("Upgrade-Insecure-Requests", Json.str "1")]]

/-- Whitespace as stripped by Python `str.strip`. -/
def isPyWs (c : Char) : Bool := isWs c || c = '\x0b' || c = '\x0c'

/-- Python `str.strip()`. -/
def py_strip (s : String) : String :=
  String.mk (((s.data.dropWhile isPyWs).reverse.dropWhile isPyWs).reverse)

/-- Line splitting at newline characters (the common case of Python
`str.splitlines`; other unicode line terminators are not modelled, and do
not affect the claims about this loader). -/
def splitOnNl : List Char → List (List Char)
  | [] => [[]]
  | '\n' :: rest => [] :: splitOnNl rest
  | c :: rest =>
      match splitOnNl rest with
      | [] => [[c]]
      | l :: ls => (c :: l) :: ls

def splitLines (s : String) : List String := (splitOnNl s.data).map String.mk

/-- Model of `load_headers`: read the file, keep the non-blank lines, parse
each with `json.loads`; any exception, and an empty parsed list, fall back
to the built-in defaults. -/
def load_headers (file : HeadersFile) : List Json :=
  match file with
  | .absent => default_headers
  | .unreadable => default_headers
  | .content text =>
      let lines := splitLines (py_strip text)
      let kept := lines.filter (fun l => !(py_strip l).isEmpty)
      match kept.mapM (fun l => loads l) with
      | none => default_headers
      | some headersList =>
          if headersList.isEmpty then default_headers else headersList

/-! ### ScrapingSession.get and fetch -/

/-- Number of attempts (`RETRIES` in the source). -/
def RETRIES : Nat := 5

/-- Outcome of one transport attempt by the cloudscraper session: a response
with an HTTP status, a body, and whether the body carries the Cloudflare
challenge markers checked by `_is_cloudflare_challenge`, or a raised
exception. -/
inductive TransportResult where
  | resp (status : Nat) (body : String) (challengeMarker : Bool)
  | exn

/-- The `_is_cloudflare_challenge` check: status 403 or 503 together with a
challenge marker in the body text. -/
def is_cloudflare_challenge : TransportResult → Bool
  | .resp status _ marker => (status = 403 || status = 503) && marker
  | .exn => false

/-- The `except` handler of one loop iteration of `ScrapingSession.get`.  On
the last attempt it initializes selenium if needed and returns its result
(an exception from `_get_with_selenium` propagates to the caller, as does
the re-raise when selenium is unavailable); otherwise the loop continues.
`Sum.inl` is a returned/raised outcome, `Sum.inr` continues the loop with
the updated fallback-invocation count. -/
def get_exc_handler (sel : Nat → Option String) (avail : Bool) (isLast : Bool)
    (c : Nat) : (Except Unit String × Nat) ⊕ Nat :=
  if isLast then
    if avail then
      match sel c with
      | some page => Sum.inl (Except.ok page, c + 1)
      | none => Sum.inl (Except.error (), c + 1)
    else Sum.inl (Except.error (), c)
  else Sum.inr c

/-- A selenium attempt made inside the `try` block (challenge detected, or
403 on the last attempt): a failure there is caught by the iteration's own
`except` handler. -/
def get_try_selenium (sel : Nat → Option String) (avail : Bool) (isLast : Bool)
    (c : Nat) : (Except Unit String × Nat) ⊕ Nat :=
  if avail then
    match sel c with
    | some page => Sum.inl (Except.ok page, c + 1)
    | none => get_exc_handler sel avail isLast (c + 1)
  else get_exc_handler sel avail isLast c

/-- One iteration of the attempt loop of `ScrapingSession.get`. -/
def session_get_step (transport : Nat → TransportResult) (sel : Nat → Option String)
    (avail : Bool) (isLast : Bool) (attempt cnt : Nat) :
    (Except Unit String × Nat) ⊕ Nat :=
  match transport attempt with
  | .exn => get_exc_handler sel avail isLast cnt
  | .resp status body marker =>
      if (status = 403 || status = 503) && marker then
        get_try_selenium sel avail isLast cnt
      else if status = 200 then Sum.inl (Except.ok body, cnt)
      else if status = 403 then
        if isLast then get_try_selenium sel avail isLast cnt
        else Sum.inr cnt
      else Sum.inr cnt

/-- The attempt loop: `fuel` attempts remain (the current one included);
falling off the loop raises `All attempts failed`. -/
def session_get_go (transport : Nat → TransportResult) (sel : Nat → Option String)
    (avail : Bool) : Nat → Nat → Nat → Except Unit String × Nat
  | 0, _, cnt => (Except.error (), cnt)
  | fuel + 1, attempt, cnt =>
      match session_get_step transport sel avail (fuel = 0) attempt cnt with
      | Sum.inl r => r
      | Sum.inr c => session_get_go transport sel avail fuel (attempt + 1) c

/-- One call to `ScrapingSession.get`, as a function of the transport
behaviour per attempt index, the selenium fallback behaviour per invocation
index, and whether selenium initialization succeeds.  `Except.error` models
an exception propagating to the caller; the second component counts
`_get_with_selenium` invocations. -/
def session_get (transport : Nat → TransportResult) (sel : Nat → Option String)
    (avail : Bool) : Except Unit String × Nat :=
  session_get_go transport sel avail RETRIES 0 0

/-- Model of the module-level `fetch` helper: `scraper_session.get` in a
`try`, returning the page text on success and `None` on any exception. -/
def fetch (transport : Nat → TransportResult) (sel : Nat → Option String)
    (avail : Bool) : Option String :=
  match (session_get transport sel avail).1 with
  | .ok html => some html
  | .error _ => none

/-- Transport that always reports a Cloudflare challenge. -/
def cex_transport : Nat → TransportResult :=
  fun _ => TransportResult.resp 403 "checking your browser" true

/-- Selenium fallback that always raises. -/
def cex_selenium : Nat → Option String := fun _ => none

/-! ### scrape_ongoing_pages -/

/-- One list entry extracted from the home or ongoing listings (the
field extraction itself is the external Extractor collaborator; home
entries also fill `day` and `date`). -/
structure Item where
  title : Option String
  link : Option String
  slug : Option String
  thumbnail : Option String
  latest_episode : Option String
  day : Option String
  date : Option String

/-- Python truthiness of an optional string: present and non-empty. -/
def truthyStr : Option String → Option String
  | some s => if s.isEmpty then none else some s
  | none => none

/-- The `while True` loop of `scrape_ongoing_pages`: fetch the page; a fetch
failure or an empty item list stops; otherwise save, extend, and continue
unless the incremented page number exceeds `max_pages`.  Returns the fetched
page numbers and the concatenated items.  The extraction oracle returns
`none` when `soup_from_url` fails and the per-page item list otherwise. -/
def ongoingGo (oracle : Nat → Option (List Item)) (maxPages : Nat) :
    Nat → Nat → List Nat × List Item
  | _, 0 => ([], [])
  | page, fuel + 1 =>
      match oracle page with
      | none => ([page], [])
      | some items =>
          if items.isEmpty then ([page], [])
          else if maxPages < page + 1 then ([page], items)
          else
            let r := ongoingGo oracle maxPages (page + 1) fuel
            (page :: r.1, items ++ r.2)

def scrape_ongoing_pages_fetched (oracle : Nat → Option (List Item)) (maxPages : Nat) :
    List Nat :=
  (ongoingGo oracle maxPages 1 (maxPages + 1)).1

def scrape_ongoing_pages_items (oracle : Nat → Option (List Item)) (maxPages : Nat) :
    List Item :=
  (ongoingGo oracle maxPages 1 (maxPages + 1)).2

/-- The dedupe-by-slug pass at the end of `scrape_ongoing_pages`: keep the
first item per truthy slug. -/
def uniqueBySlug : List String → List Item → List Item
  | _, [] => []
  | seen, it :: rest =>
      match truthyStr it.slug with
      | none => uniqueBySlug seen rest
      | some s =>
          if s ∈ seen then uniqueBySlug seen rest
          else it :: uniqueBySlug (s :: seen) rest

/-- Default `max_pages=50` of `scrape_ongoing_pages`. -/
def defaultMaxPages : Nat := 50

/-- Return value of `scrape_ongoing_pages`: the unique item list. -/
def scrape_ongoing_pages (oracle : Nat → Option (List Item)) (maxPages : Nat) :
    List Item :=
  uniqueBySlug [] (scrape_ongoing_pages_items oracle maxPages)

def cex_item_a : Item := ⟨some "Anime A", some "https://otakudesu.best/anime/a/",
  some "a", none, none, none, none⟩

def cex_item_b : Item := ⟨some "Anime B", some "https://otakudesu.best/anime/b/",
  some "b", none, none, none, none⟩

/-- Fixture where pages 1 and 2 carry one item and page 3 is empty. -/
def cex_ongoing_oracle : Nat → Option (List Item) :=
  fun p => if p ≤ 2 then some [cex_item_a] else some []

/-! ### run_all: slug collection, stage order, episode queue -/

/-- Model of `slug_from_url` on a present URL:
`url.rstrip("/").split("/")[-1]`. -/
def slug_from_url (url : String) : String :=
  String.mk (((url.data.reverse.dropWhile (fun c => c = '/')).takeWhile
    (fun c => c ≠ '/')).reverse)

/-- One entry of the `episodes` list of an anime detail record. -/
structure EpisodeRef where
  title : Option String
  link : Option String
  slug : Option String

/-- An extracted AnimeDetail record (shape as persisted by
`scrape_anime_detail_by_slug`); the crawl orchestration only mines
`episodes`. -/
structure AnimeDetail where
  title : Option String
  slug : String
  url : String
  poster : Option String
  synopsis : Option String
  genres : List String
  info : List (String × String)
  episodes : List EpisodeRef

/-- Episode slugs mined from one successfully extracted AnimeDetail record
(`run_all` lines adding to `ep_queue`): the entry's truthy slug, else the
slug derived from its truthy link. -/
def minedEpisodeSlugs (ad : AnimeDetail) : List String :=
  ad.episodes.filterMap fun ep =>
    match truthyStr ep.slug with
    | some s => some s
    | none =>
        match truthyStr ep.link with
        | some link => some (slug_from_url link)
        | none => none

/-- Order-preserving duplicate removal (first occurrence kept), used to
model the contents of a Python set built by iterated `add`. -/
def dedupFirstAux : List String → List String → List String
  | _, [] => []
  | seen, x :: xs =>
      if x ∈ seen then dedupFirstAux seen xs
      else x :: dedupFirstAux (x :: seen) xs

def dedupFirst (l : List String) : List String := dedupFirstAux [] l

/-- Lexicographic comparison of code-point sequences, as Python compares
strings. -/
def charListLe : List Char → List Char → Bool
  | [], _ => true
  | _ :: _, [] => false
  | a :: as, b :: bs =>
      if a.toNat < b.toNat then true
      else if b.toNat < a.toNat then false
      else charListLe as bs

def pyStrLe (a b : String) : Bool := charListLe a.data b.data

/-- Python `sorted` on strings: ascending lexicographic order. -/
def py_sorted (l : List String) : List String :=
  l.insertionSort (fun a b => pyStrLe a b = true)

/-- The slugs gathered into the `slugs` set: truthy slugs of the ongoing
unique list, then truthy slugs of the persisted home list. -/
def collected_slugs (ongoing home : List Item) : List String :=
  (ongoing.filterMap fun it => truthyStr it.slug) ++
    (home.filterMap fun it => truthyStr it.slug)

/-- Model of `slugs_list = sorted(slugs)`: the order anime details are processed in. -/
def slugs_list (ongoing home : List Item) : List String :=
  py_sorted (dedupFirst (collected_slugs ongoing home))

/-- The `ep_queue` contents after the anime loop: episode slugs mined from
each successfully scraped detail, in processing order. -/
def ep_queue (detail : String → Option AnimeDetail) (slugs : List String) :
    List String :=
  slugs.foldl (fun acc slug =>
    match detail slug with
    | some ad => acc ++ minedEpisodeSlugs ad
    | none => acc) []

/-- Model of `ep_queue_list = sorted([s for s in ep_queue if s])`. -/
def ep_queue_list (detail : String → Option AnimeDetail) (slugs : List String) :
    List String :=
  py_sorted ((dedupFirst (ep_queue detail slugs)).filter (fun s => !s.isEmpty))

/-- One page fetch performed during `run_all`, in order. -/
inductive FetchEvent where
  | home
  | ongoingPage (page : Nat)
  | genreList
  | jadwal
  | anime (slug : String)
  | episode (slug : String)
  deriving DecidableEq

/-- The sequence of page fetches of one `run_all` invocation: the home page,
the ongoing pages until the first empty one, the genre list, the schedule,
one AnimeDetail fetch per slug in `sorted(slugs)` order, then one
EpisodeDetail fetch per slug in `sorted(ep_queue)` order.  `homeItems` is the
home list read back from `home.json` (freshly written by `scrape_home`),
`detail` is the detail-scrape outcome per slug (`none` for a failed fetch or
extraction), and episode fetch outcomes discover no further work. -/
def run_all_trace (homeItems : List Item) (ongoingOracle : Nat → Option (List Item))
    (detail : String → Option AnimeDetail) : List FetchEvent :=
  let ongoingUnique := scrape_ongoing_pages ongoingOracle defaultMaxPages
  let slugs := slugs_list ongoingUnique homeItems
  let eps := ep_queue_list detail slugs
  FetchEvent.home ::
    ((scrape_ongoing_pages_fetched ongoingOracle defaultMaxPages).map
        FetchEvent.ongoingPage ++
      (FetchEvent.genreList :: FetchEvent.jadwal ::
        (slugs.map FetchEvent.anime ++ eps.map FetchEvent.episode)))

/-- The non-episode prefix of `run_all_trace`. -/
def run_all_front (homeItems : List Item) (ongoingOracle : Nat → Option (List Item))
    (_detail : String → Option AnimeDetail) : List FetchEvent :=
  let ongoingUnique := scrape_ongoing_pages ongoingOracle defaultMaxPages
  let slugs := slugs_list ongoingUnique homeItems
  FetchEvent.home ::
    ((scrape_ongoing_pages_fetched ongoingOracle defaultMaxPages).map
        FetchEvent.ongoingPage ++
      (FetchEvent.genreList :: FetchEvent.jadwal ::
        slugs.map FetchEvent.anime))

/-- Detail oracle for the stage-order witness: one anime with three
episodes. -/
def cex_detail : String → Option AnimeDetail :=
  fun s => if s = "a" then
    some ⟨some "Anime A", "a", "https://otakudesu.best/anime/a/", none, none, [], [],
      [⟨some "Episode 1", some "https://otakudesu.best/episode/e1/", some "e1"⟩,
       ⟨some "Episode 2", some "https://otakudesu.best/episode/e2/", some "e2"⟩,
       ⟨some "Episode 3", some "https://otakudesu.best/episode/e3/", some "e3"⟩]⟩
  else none

/-! ### Round-trip of the persisted JSON form -/

theorem skipWs_cons_of_not_ws (c : Char) (cs : List Char) (h : isWs c = false) :
    skipWs (c :: cs) = c :: cs := by
  simp [skipWs, h]

theorem skipWs_ws_front (pre cs : List Char) (h : ∀ c ∈ pre, isWs c = true) :
    skipWs (pre ++ cs) = skipWs cs := by
  induction pre with
  | nil => rfl
  | cons p ps ih =>
    rw [List.cons_append, skipWs, if_pos (h p (List.mem_cons_self p ps))]
    exact ih fun c hc => h c (List.mem_cons_of_mem p hc)

theorem mem_nlInd_ws (lvl : Nat) : ∀ c ∈ nlInd lvl, isWs c = true := by
  intro c hc
  simp only [nlInd, List.mem_cons, List.mem_replicate] at hc
  rcases hc with h | ⟨-, h⟩ <;> simp [h, isWs]

theorem skipWs_nlInd (lvl : Nat) (cs : List Char) :
    skipWs (nlInd lvl ++ cs) = skipWs cs :=
  skipWs_ws_front _ _ (mem_nlInd_ws lvl)

theorem hexVal_hexDigit (n : Nat) (h : n < 16) : hexVal (hexDigit n) = some n := by
  interval_cases n <;> decide

theorem charOfNat_toNat (c : Char) (h : c.toNat < 55296) : Char.ofNat c.toNat = c := by
  have hv : c.toNat.isValidChar := Or.inl h
  simp only [Char.ofNat, hv, dif_pos]
  rcases c with ⟨⟨v⟩, hval⟩
  simp only [Char.ofNatAux]
  congr 1

/-- Reading back one escaped string body recovers the original characters. -/
theorem parseStr_escStr (s rest : List Char) :
    parseStr (escStr s ++ '"' :: rest) = some (s, rest) := by
  induction s with
  | nil =>
    rw [escStr, List.nil_append, parseStr.eq_def]
    simp
  | cons c cs ih =>
    rw [escStr, List.append_assoc]
    by_cases h1 : c = '"'
    · subst h1
      rw [show escChar '"' = ['\\', '"'] from rfl, List.cons_append, List.cons_append,
        List.nil_append, parseStr.eq_def]
      simp [decodeShortEsc, ih]
    by_cases h2 : c = '\\'
    · subst h2
      rw [show escChar '\\' = ['\\', '\\'] from rfl, List.cons_append, List.cons_append,
        List.nil_append, parseStr.eq_def]
      simp [decodeShortEsc, ih]
    by_cases h3 : c = '\n'
    · subst h3
      rw [show escChar '\n' = ['\\', 'n'] from rfl, List.cons_append, List.cons_append,
        List.nil_append, parseStr.eq_def]
      simp [decodeShortEsc, ih]
    by_cases h4 : c = '\t'
    · subst h4
      rw [show escChar '\t' = ['\\', 't'] from rfl, List.cons_append, List.cons_append,
        List.nil_append, parseStr.eq_def]
      simp [decodeShortEsc, ih]
    by_cases h5 : c = '\r'
    · subst h5
      rw [show escChar '\r' = ['\\', 'r'] from rfl, List.cons_append, List.cons_append,
        List.nil_append, parseStr.eq_def]
      simp [decodeShortEsc, ih]
    by_cases h6 : c = '\x08'
    · subst h6
      rw [show escChar '\x08' = ['\\', 'b'] from rfl, List.cons_append, List.cons_append,
        List.nil_append, parseStr.eq_def]
      simp [decodeShortEsc, ih]
    by_cases h7 : c = '\x0c'
    · subst h7
      rw [show escChar '\x0c' = ['\\', 'f'] from rfl, List.cons_append, List.cons_append,
        List.nil_append, parseStr.eq_def]
      simp [decodeShortEsc, ih]
    by_cases h8 : c.toNat < 32
    · have hesc : escChar c =
          ['\\', 'u', '0', '0', hexDigit (c.toNat / 16), hexDigit (c.toNat % 16)] := by
        simp [escChar, h1, h2, h3, h4, h5, h6, h7, h8]
      rw [hesc]
      simp only [List.cons_append, List.nil_append]
      rw [parseStr.eq_def]
      have hd1 : hexVal (hexDigit (c.toNat / 16)) = some (c.toNat / 16) :=
        hexVal_hexDigit _ (by omega)
      have hd2 : hexVal (hexDigit (c.toNat % 16)) = some (c.toNat % 16) :=
        hexVal_hexDigit _ (by omega)
      have hv0 : hexVal '0' = some 0 := rfl
      simp only [hv0, hd1, hd2, Option.bind_some, Option.some_bind]
      have hn : c.toNat / 16 * 16 + c.toNat % 16 = c.toNat := by omega
      simp [hn, ih, charOfNat_toNat c (by omega), show c.toNat < 55296 by omega]
    · have hesc : escChar c = [c] := by
        simp [escChar, h1, h2, h3, h4, h5, h6, h7, h8]
      rw [hesc, List.cons_append, List.nil_append, parseStr.eq_def]
      simp [h1, h2, h8, ih]

theorem jsize_pos (j : Json) : 1 ≤ jsize j := by
  cases j <;> simp [jsize]

theorem string_eta (s : String) : String.mk s.data = s := rfl

theorem parseVal_ws_front (f : Nat) (pre cs : List Char) (h : ∀ c ∈ pre, isWs c = true) :
    parseVal f (pre ++ cs) = parseVal f cs := by
  cases f with
  | zero => rw [parseVal.eq_1, parseVal.eq_1]
  | succ f => rw [parseVal.eq_2, parseVal.eq_2, skipWs_ws_front pre cs h]

theorem parseVal_nlInd (f lvl : Nat) (cs : List Char) :
    parseVal f (nlInd lvl ++ cs) = parseVal f cs :=
  parseVal_ws_front f _ cs (mem_nlInd_ws lvl)

theorem parseVal_space (f : Nat) (cs : List Char) :
    parseVal f (' ' :: cs) = parseVal f cs :=
  parseVal_ws_front f [' '] cs (by intro c hc; simp at hc; simp [hc, isWs])

/-- Every serialized value starts with a non-whitespace character that is not
a closing bracket, closing brace, comma or colon. -/
theorem dumpsV_head (lvl : Nat) (j : Json) :
    ∃ c t, dumpsV lvl j = c :: t ∧ isWs c = false ∧ c ≠ ']' ∧ c ≠ '\x7d' := by
  cases j with
  | null => exact ⟨'n', _, by rw [dumpsV], by decide, by decide, by decide⟩
  | bool b =>
    cases b with
    | true => exact ⟨'t', _, by rw [dumpsV], by decide, by decide, by decide⟩
    | false => exact ⟨'f', _, by rw [dumpsV], by decide, by decide, by decide⟩
  | str s => exact ⟨'"', _, by rw [dumpsV], by decide, by decide, by decide⟩
  | arr l =>
    cases l with
    | nil => exact ⟨'[', _, by rw [dumpsV], by decide, by decide, by decide⟩
    | cons x xs => exact ⟨'[', _, by rw [dumpsV], by decide, by decide, by decide⟩
  | obj l =>
    cases l with
    | nil => exact ⟨'\x7b', _, by rw [dumpsV], by decide, by decide, by decide⟩
    | cons f fs => exact ⟨'\x7b', _, by rw [dumpsV], by decide, by decide, by decide⟩

/-- Fuel-indexed round-trip: reading a serialized value back (with enough
fuel) returns exactly that value and the untouched remainder. -/
theorem parse_dumps_aux (fuel : Nat) :
    (∀ j lvl rest, jsize j ≤ fuel →
      parseVal fuel (dumpsV lvl j ++ rest) = some (j, rest)) ∧
    (∀ xs lvl clvl rest, jsizeL xs + 1 ≤ fuel →
      parseElems fuel (dumpsElems lvl xs ++ (nlInd clvl ++ ']' :: rest)) = some (xs, rest)) ∧
    (∀ fs lvl clvl rest, jsizeP fs + 1 ≤ fuel →
      parseFields fuel (dumpsFields lvl fs ++ (nlInd clvl ++ '\x7d' :: rest)) =
        some (fs, rest)) := by
  induction fuel with
  | zero =>
    refine ⟨fun j _ _ h => absurd h (by have := jsize_pos j; omega),
      fun _ _ _ _ h => absurd h (by omega),
      fun _ _ _ _ h => absurd h (by omega)⟩
  | succ f ih =>
    obtain ⟨IH1, IH2, IH3⟩ := ih
    refine ⟨?_, ?_, ?_⟩
    · -- parseVal on dumpsV
      intro j lvl rest hsz
      cases j with
      | null =>
        rw [dumpsV]
        simp only [List.cons_append, List.nil_append]
        rw [parseVal.eq_2, skipWs_cons_of_not_ws _ _ (by decide), parseValCore.eq_1]
      | bool b =>
        cases b with
        | true =>
          rw [dumpsV]
          simp only [List.cons_append, List.nil_append]
          rw [parseVal.eq_2, skipWs_cons_of_not_ws _ _ (by decide), parseValCore.eq_2]
        | false =>
          rw [dumpsV]
          simp only [List.cons_append, List.nil_append]
          rw [parseVal.eq_2, skipWs_cons_of_not_ws _ _ (by decide), parseValCore.eq_3]
      | str s =>
        rw [dumpsV]
        simp only [List.cons_append, List.append_assoc, List.nil_append]
        rw [parseVal.eq_2, skipWs_cons_of_not_ws _ _ (by decide), parseValCore.eq_4,
          parseStr_escStr]
        rfl
      | arr l =>
        cases l with
        | nil =>
          rw [dumpsV]
          simp only [List.cons_append, List.nil_append]
          rw [parseVal.eq_2, skipWs_cons_of_not_ws _ _ (by decide), parseValCore.eq_5,
            skipWs_cons_of_not_ws _ _ (by decide), parseArrBody.eq_2, if_pos rfl]
        | cons x xs =>
          rw [dumpsV]
          simp only [List.cons_append, List.append_assoc, List.nil_append]
          rw [jsize, jsizeL] at hsz
          have hx2 : jsize x ≤ f := by have := jsize_pos x; omega
          have hxs2 : jsizeL xs + 1 ≤ f := by have := jsize_pos x; omega
          obtain ⟨c, t, hx, hnw, hnb, hnb2⟩ := dumpsV_head (lvl + 1) x
          rw [parseVal.eq_2, skipWs_cons_of_not_ws _ _ (by decide), parseValCore.eq_5,
            skipWs_nlInd, hx, List.cons_append, skipWs_cons_of_not_ws _ _ hnw,
            parseArrBody.eq_2, if_neg hnb, ← List.cons_append, ← hx,
            IH1 x (lvl + 1) _ hx2]
          simp [IH2 xs (lvl + 1) lvl rest hxs2]
      | obj l =>
        cases l with
        | nil =>
          rw [dumpsV]
          simp only [List.cons_append, List.nil_append]
          rw [parseVal.eq_2, skipWs_cons_of_not_ws _ _ (by decide), parseValCore.eq_6,
            skipWs_cons_of_not_ws _ _ (by decide), parseObjBody.eq_1]
        | cons fd fs =>
          obtain ⟨k, v⟩ := fd
          rw [jsize, jsizeP] at hsz
          have hsz2 : 1 + (jsize v + 1 + jsizeP fs) ≤ f + 1 := hsz
          have hv2 : jsize v ≤ f := by have := jsize_pos v; omega
          have hfs2 : jsizeP fs + 1 ≤ f := by have := jsize_pos v; omega
          rw [dumpsV, dumpsField]
          simp only [List.cons_append, List.append_assoc, List.nil_append]
          rw [parseVal.eq_2, skipWs_cons_of_not_ws _ _ (by decide), parseValCore.eq_6,
            skipWs_nlInd, skipWs_cons_of_not_ws _ _ (by decide), parseObjBody.eq_2,
            parseStr_escStr]
          simp only [bind, Option.bind]
          rw [skipWs_cons_of_not_ws _ _ (by decide), parseObjColon.eq_1, parseVal_space,
            IH1 v (lvl + 1) _ hv2]
          simp only [bind, Option.bind]
          rw [IH3 fs (lvl + 1) lvl rest hfs2]
    · -- parseElems on dumpsElems
      intro xs lvl clvl rest hsz
      cases xs with
      | nil =>
        rw [dumpsElems, List.nil_append, parseElems.eq_2, skipWs_nlInd,
          skipWs_cons_of_not_ws _ _ (by decide), parseElemsCore.eq_1]
      | cons y ys =>
        rw [jsizeL] at hsz
        have hy2 : jsize y ≤ f := by have := jsize_pos y; omega
        have hys2 : jsizeL ys + 1 ≤ f := by have := jsize_pos y; omega
        rw [dumpsElems]
        simp only [List.cons_append, List.append_assoc, List.nil_append]
        rw [parseElems.eq_2, skipWs_cons_of_not_ws _ _ (by decide), parseElemsCore.eq_2,
          parseVal_nlInd, IH1 y lvl _ hy2]
        simp only [bind, Option.bind]
        rw [IH2 ys lvl clvl rest hys2]
    · -- parseFields on dumpsFields
      intro fs lvl clvl rest hsz
      cases fs with
      | nil =>
        rw [dumpsFields, List.nil_append, parseFields.eq_2, skipWs_nlInd,
          skipWs_cons_of_not_ws _ _ (by decide), parseFieldsCore.eq_1]
      | cons fd gs =>
        obtain ⟨k, v⟩ := fd
        rw [jsizeP] at hsz
        have hsz2 : jsize v + 1 + jsizeP gs + 1 ≤ f + 1 := hsz
        have hv2 : jsize v ≤ f := by have := jsize_pos v; omega
        have hgs2 : jsizeP gs + 1 ≤ f := by have := jsize_pos v; omega
        rw [dumpsFields, dumpsField]
        simp only [List.cons_append, List.append_assoc, List.nil_append]
        rw [parseFields.eq_2, skipWs_cons_of_not_ws _ _ (by decide), parseFieldsCore.eq_2,
          skipWs_nlInd, skipWs_cons_of_not_ws _ _ (by decide), parseFieldComma.eq_1,
          parseStr_escStr]
        simp only [bind, Option.bind]
        rw [skipWs_cons_of_not_ws _ _ (by decide), parseFieldColon.eq_1, parseVal_space,
          IH1 v lvl _ hv2]
        simp only [bind, Option.bind]
        rw [IH3 gs lvl clvl rest hgs2]

mutual

theorem jsize_le_len (lvl : Nat) (j : Json) : jsize j ≤ (dumpsV lvl j).length := by
  cases j with
  | null => simp [jsize, dumpsV]
  | bool b => cases b <;> simp [jsize, dumpsV]
  | str s => simp [jsize, dumpsV]
  | arr l =>
    cases l with
    | nil => simp [jsize, jsizeL, dumpsV]
    | cons x xs =>
      have h1 := jsize_le_len (lvl + 1) x
      have h2 := jsizeL_le_len (lvl + 1) xs
      simp only [jsize, jsizeL, dumpsV, nlInd, List.length_append, List.length_cons]
      omega
  | obj l =>
    cases l with
    | nil => simp [jsize, jsizeP, dumpsV]
    | cons fd fs =>
      have h1 := jsize_le_len (lvl + 1) fd.2
      have h2 := jsizeP_le_len (lvl + 1) fs
      simp only [jsize, jsizeP, dumpsV, dumpsField, nlInd, List.length_append,
        List.length_cons]
      obtain ⟨k, v⟩ := fd
      simp only [dumpsField, List.length_append, List.length_cons] at *
      omega

theorem jsizeL_le_len (lvl : Nat) (xs : List Json) :
    jsizeL xs ≤ (dumpsElems lvl xs).length := by
  cases xs with
  | nil => simp [jsizeL, dumpsElems]
  | cons y ys =>
    have h1 := jsize_le_len lvl y
    have h2 := jsizeL_le_len lvl ys
    simp only [jsizeL, dumpsElems, nlInd, List.length_append, List.length_cons]
    omega

theorem jsizeP_le_len (lvl : Nat) (fs : List (String × Json)) :
    jsizeP fs ≤ (dumpsFields lvl fs).length := by
  cases fs with
  | nil => simp [jsizeP, dumpsFields]
  | cons fd gs =>
    have h1 := jsize_le_len lvl fd.2
    have h2 := jsizeP_le_len lvl gs
    obtain ⟨k, v⟩ := fd
    simp only [jsizeP, dumpsFields, dumpsField, nlInd, List.length_append,
      List.length_cons] at *
    omega

end

/-- Round-trip at the string level: reading back the serialized form of a
record returns exactly that record. -/
theorem loads_dumps (j : Json) : loads (dumps j) = some j := by
  have hlen := jsize_le_len 0 j
  have h := (parse_dumps_aux ((dumpsV 0 j).length + 1)).1 j 0 [] (by omega)
  rw [List.append_nil] at h
  show (match parseVal ((dumpsV 0 j).length + 1) (dumpsV 0 j) with
        | some (j2, rest) => if skipWs rest = [] then some j2 else none
        | none => none) = some j
  rw [h]
  rfl

/-! ### Claim theorems: PageStore (C7, C1, C8) -/

/-- C7: the persisted JSON form is exactly re-loadable: for every record and
every path, reading back what `save_json` wrote returns the record. -/
theorem pagestore_roundtrip (data : Json) (filename folder : String) (st : Store) :
    load_record (save_json data filename folder st) filename folder = some data := by
  unfold load_record save_json
  rw [if_pos rfl]
  show loads (dumps data) = some data
  exact loads_dumps data

/-- C1 counterexample: `save_json` is not a no-op when a record already
exists for the target path: it replaces the persisted contents. -/
theorem save_json_not_noop_cex :
    cex_store "outputs/home/home.json" = some "[]" ∧
    save_json Json.null "home.json" "outputs/home" cex_store "outputs/home/home.json" =
      some (dumps Json.null) ∧
    save_json Json.null "home.json" "outputs/home" cex_store ≠ cex_store := by
  refine ⟨rfl, ?_, ?_⟩
  · simp [save_json]
  · intro h
    have h2 := congrFun h "outputs/home/home.json"
    simp [save_json, cex_store, dumps, dumpsV] at h2

/-- C1 amended: `save_json` unconditionally serializes and writes, replacing
any existing record at the target path, and a run always performs its page
fetches (the home page is fetched on every run) regardless of what is
already persisted. -/
theorem save_json_always_writes :
    (∀ (data : Json) (filename folder : String) (st : Store),
      save_json data filename folder st (folder ++ "/" ++ filename) =
        some (dumps data)) ∧
    (∀ (homeItems : List Item) (ongoingOracle : Nat → Option (List Item))
      (detail : String → Option AnimeDetail),
      FetchEvent.home ∈ run_all_trace homeItems ongoingOracle detail) := by
  constructor
  · intro data filename folder st
    simp [save_json]
  · intro homeItems ongoingOracle detail
    show FetchEvent.home ∈ FetchEvent.home :: _
    exact List.mem_cons_self _ _

/-- C8 counterexample: the write is not atomic: interrupting a save right
after `open(path, "w")` truncated the file destroys the previously
persisted record for that path (it no longer loads). -/
theorem save_not_atomic_cex :
    load_record cex_store8 "a.json" "outputs/anime" = some (Json.arr []) ∧
    load_record (save_json_interrupted Json.null "a.json" "outputs/anime" cex_store8 0)
      "a.json" "outputs/anime" = none := by
  constructor
  · unfold load_record cex_store8
    rw [if_pos (by decide)]
    simp [loads, parseVal.eq_2, parseValCore.eq_5, parseArrBody, skipWs, isWs]
  · unfold load_record save_json_interrupted
    rw [if_pos rfl]
    simp [loads, parseVal.eq_2, parseValCore, skipWs]

/-- C8 amended: an interrupted `save_json` can corrupt the record being
written, but files at every other path keep their previous contents. -/
theorem interrupted_save_preserves_other_files (data : Json)
    (filename folder : String) (st : Store) (written : Nat) (p : String)
    (hp : p ≠ folder ++ "/" ++ filename) :
    save_json_interrupted data filename folder st written p = st p := by
  simp [save_json_interrupted, hp]

/-- Witness for the amended C8 statement at a concrete store and path. -/
theorem interrupted_save_preserves_other_files_witness :
    save_json_interrupted Json.null "a.json" "outputs/anime" cex_store8 0
      "outputs/anime/b.json" = cex_store8 "outputs/anime/b.json" :=
  interrupted_save_preserves_other_files Json.null "a.json" "outputs/anime"
    cex_store8 0 "outputs/anime/b.json" (by decide)

/-! ### Claim theorems: load_headers (C10) -/

/-- C10: whatever the state of the headers file — absent, unreadable, or
present with any text (valid JSON lines, blank, or garbage) — `load_headers`
returns a non-empty list, and both failure states return the built-in
defaults, so the module-level `HEADERS_LIST` is always non-empty. -/
theorem load_headers_nonempty :
    (∀ hf : HeadersFile, load_headers hf ≠ []) ∧
    load_headers HeadersFile.absent = default_headers ∧
    load_headers HeadersFile.unreadable = default_headers := by
  refine ⟨?_, rfl, rfl⟩
  intro hf
  have hdef : default_headers ≠ [] := by simp [default_headers]
  cases hf with
  | absent => exact hdef
  | unreadable => exact hdef
  | content text =>
    rw [load_headers]
    cases hparse : (((splitLines (py_strip text)).filter
        (fun l => !(py_strip l).isEmpty)).mapM (fun l => loads l)) with
    | none => exact hdef
    | some headersList =>
      by_cases hempty : headersList.isEmpty
      · simp [hempty, hdef]
      · simp [hempty]
        intro hcon
        rw [hcon] at hempty
        exact hempty rfl

/-! ### Claim theorems: pagination (C2) -/

/-- C2 counterexample: with pages 1–2 non-empty and page 3 empty, the loop
fetches pages 1, 2 and 3 — not only pages 1–2: the first empty page is
itself fetched (that fetch is how the loop learns it is empty). -/
theorem ongoing_fetches_empty_page_cex :
    scrape_ongoing_pages_fetched cex_ongoing_oracle 50 = [1, 2, 3] ∧
    ([1, 2, 3] : List Nat) ≠ [1, 2] := by
  constructor
  · decide
  · decide

theorem ongoingGo_fetched_range (oracle : Nat → Option (List Item)) (maxPages n : Nat)
    (hmax : n ≤ maxPages) (hempty : oracle n = some [])
    (hfull : ∀ k, 1 ≤ k → k < n → ∃ items, oracle k = some items ∧ items ≠ []) :
    ∀ fuel p, 1 ≤ p → p ≤ n → n - p < fuel →
      (ongoingGo oracle maxPages p fuel).1 = List.range' p (n - p + 1) := by
  intro fuel
  induction fuel with
  | zero => intro p h1 h2 h3; omega
  | succ f ih =>
    intro p h1 h2 h3
    rcases Nat.eq_or_lt_of_le h2 with rfl | hlt
    · simp [ongoingGo, hempty, List.range']
    · obtain ⟨items, hit, hne⟩ := hfull p h1 hlt
      have hie : items.isEmpty = false := by
        cases items with
        | nil => exact absurd rfl hne
        | cons a l => rfl
      have hcap : ¬ maxPages < p + 1 := by omega
      rw [ongoingGo, hit]
      simp only [hie, Bool.false_eq_true, if_false, hcap, ite_false]
      have hrec := ih (p + 1) (by omega) (by omega) (by omega)
      simp only [hrec]
      rw [show n - p + 1 = (n - (p + 1) + 1) + 1 by omega, List.range'_succ]
      congr 1

/-- C2 amended: when page `n` (within the page cap) is the first page
yielding zero items and every earlier page fetch succeeds with items, the
loop fetches exactly pages 1 through `n` — the empty page `n` included —
and no page beyond `n`. -/
theorem ongoing_pages_fetch_range (oracle : Nat → Option (List Item))
    (n maxPages : Nat) (h1 : 1 ≤ n) (h2 : n ≤ maxPages)
    (h3 : ∀ k, 1 ≤ k → k < n → ∃ items, oracle k = some items ∧ items ≠ [])
    (h4 : oracle n = some []) :
    scrape_ongoing_pages_fetched oracle maxPages = List.range' 1 n := by
  unfold scrape_ongoing_pages_fetched
  rw [ongoingGo_fetched_range oracle maxPages n h2 h4 h3 (maxPages + 1) 1 le_rfl h1
    (by omega)]
  congr 1
  omega

/-- Witness for the amended C2 statement on the three-page fixture. -/
theorem ongoing_pages_fetch_range_witness :
    scrape_ongoing_pages_fetched cex_ongoing_oracle 50 = List.range' 1 3 :=
  ongoing_pages_fetch_range cex_ongoing_oracle 3 50 (by decide) (by decide)
    (by intro k hk1 hk2
        interval_cases k
        · exact ⟨[cex_item_a], rfl, List.cons_ne_nil _ _⟩
        · exact ⟨[cex_item_a], rfl, List.cons_ne_nil _ _⟩)
    rfl

/-! ### Claim theorems: session fallback and fetch (C3, C6) -/

theorem get_exc_handler_inl_bound (sel : Nat → Option String) (avail isLast : Bool)
    (c : Nat) (r : Except Unit String) (c2 : Nat)
    (h : get_exc_handler sel avail isLast c = Sum.inl (r, c2)) : c2 ≤ c + 1 := by
  cases isLast with
  | false => simp [get_exc_handler] at h
  | true =>
    cases avail with
    | false =>
      simp only [get_exc_handler, if_true, Bool.false_eq_true, if_false,
        Sum.inl.injEq, Prod.mk.injEq] at h
      omega
    | true =>
      cases hsel : sel c with
      | some page =>
        simp only [get_exc_handler, if_true, hsel, Sum.inl.injEq, Prod.mk.injEq] at h
        omega
      | none =>
        simp only [get_exc_handler, if_true, hsel, Sum.inl.injEq, Prod.mk.injEq] at h
        omega

theorem get_exc_handler_inr_eq (sel : Nat → Option String) (avail isLast : Bool)
    (c c2 : Nat) (h : get_exc_handler sel avail isLast c = Sum.inr c2) : c2 = c := by
  cases isLast with
  | false =>
    simp only [get_exc_handler, Bool.false_eq_true, if_false, Sum.inr.injEq] at h
    omega
  | true =>
    cases avail with
    | false => simp [get_exc_handler] at h
    | true => cases hsel : sel c <;> simp [get_exc_handler, hsel] at h

theorem get_try_selenium_inl_bound (sel : Nat → Option String) (avail isLast : Bool)
    (c : Nat) (r : Except Unit String) (c2 : Nat)
    (h : get_try_selenium sel avail isLast c = Sum.inl (r, c2)) : c2 ≤ c + 2 := by
  cases avail with
  | false =>
    simp only [get_try_selenium, Bool.false_eq_true, if_false] at h
    have := get_exc_handler_inl_bound sel false isLast c r c2 h
    omega
  | true =>
    cases hsel : sel c with
    | some page =>
      simp only [get_try_selenium, if_true, hsel, Sum.inl.injEq, Prod.mk.injEq] at h
      omega
    | none =>
      simp only [get_try_selenium, if_true, hsel] at h
      have := get_exc_handler_inl_bound sel true isLast (c + 1) r c2 h
      omega

theorem get_try_selenium_inr_bound (sel : Nat → Option String) (avail isLast : Bool)
    (c c2 : Nat) (h : get_try_selenium sel avail isLast c = Sum.inr c2) : c2 ≤ c + 1 := by
  cases avail with
  | false =>
    simp only [get_try_selenium, Bool.false_eq_true, if_false] at h
    have := get_exc_handler_inr_eq sel false isLast c c2 h
    omega
  | true =>
    cases hsel : sel c with
    | some page => simp [get_try_selenium, hsel] at h
    | none =>
      simp only [get_try_selenium, if_true, hsel] at h
      have := get_exc_handler_inr_eq sel true isLast (c + 1) c2 h
      omega

theorem session_get_step_inl_bound (t : Nat → TransportResult)
    (sel : Nat → Option String) (avail isLast : Bool) (attempt cnt : Nat)
    (r : Except Unit String) (c2 : Nat)
    (h : session_get_step t sel avail isLast attempt cnt = Sum.inl (r, c2)) :
    c2 ≤ cnt + 2 := by
  unfold session_get_step at h
  cases htr : t attempt with
  | exn =>
    rw [htr] at h
    dsimp only at h
    have := get_exc_handler_inl_bound sel avail isLast cnt r c2 h
    omega
  | resp status body marker =>
    rw [htr] at h
    dsimp only at h
    split_ifs at h with hc h200 h403 <;>
      first
        | exact get_try_selenium_inl_bound sel avail isLast cnt r c2 h
        | (simp only [Sum.inl.injEq, Prod.mk.injEq] at h
           rcases h with ⟨h1, h2⟩
           omega)
        | simp at h

theorem session_get_step_inr_bound (t : Nat → TransportResult)
    (sel : Nat → Option String) (avail isLast : Bool) (attempt cnt c2 : Nat)
    (h : session_get_step t sel avail isLast attempt cnt = Sum.inr c2) :
    c2 ≤ cnt + 1 := by
  unfold session_get_step at h
  cases htr : t attempt with
  | exn =>
    rw [htr] at h
    dsimp only at h
    have := get_exc_handler_inr_eq sel avail isLast cnt c2 h
    omega
  | resp status body marker =>
    rw [htr] at h
    dsimp only at h
    split_ifs at h with hc h200 h403 <;>
      first
        | exact get_try_selenium_inr_bound sel avail isLast cnt c2 h
        | (simp only [Sum.inr.injEq] at h
           omega)
        | simp at h

theorem session_get_go_count_bound (t : Nat → TransportResult)
    (sel : Nat → Option String) (avail : Bool) :
    ∀ fuel attempt cnt,
      (session_get_go t sel avail fuel attempt cnt).2 ≤ cnt + fuel + 1 := by
  intro fuel
  induction fuel with
  | zero => intro attempt cnt; simp [session_get_go]
  | succ f ih =>
    intro attempt cnt
    rw [session_get_go]
    cases hstep : session_get_step t sel avail (f = 0) attempt cnt with
    | inl r =>
      obtain ⟨res, c2⟩ := r
      have := session_get_step_inl_bound t sel avail (f = 0) attempt cnt res c2 hstep
      simpa using by omega
    | inr c =>
      have h1 := session_get_step_inr_bound t sel avail (f = 0) attempt cnt c hstep
      have h2 := ih (attempt + 1) c
      simp only []
      omega

/-- Under an always-failing fallback and a transport that never returns
status 200, no loop step can return a successful result. -/
theorem session_get_step_no_ok (t : Nat → TransportResult)
    (sel : Nat → Option String) (avail isLast : Bool) (attempt cnt : Nat)
    (hsel : ∀ k, sel k = none)
    (ht : ∀ status body marker, t attempt = TransportResult.resp status body marker →
      status ≠ 200)
    (r : Except Unit String) (c2 : Nat)
    (h : session_get_step t sel avail isLast attempt cnt = Sum.inl (r, c2)) :
    r = Except.error () := by
  have hexc : ∀ c r2 c3, get_exc_handler sel avail isLast c = Sum.inl (r2, c3) →
      r2 = Except.error () := by
    intro c r2 c3 hh
    cases isLast with
    | false => simp [get_exc_handler] at hh
    | true =>
      cases avail with
      | false =>
        simp only [get_exc_handler, if_true, Bool.false_eq_true, if_false,
          Sum.inl.injEq, Prod.mk.injEq] at hh
        exact hh.1.symm
      | true =>
        simp only [get_exc_handler, if_true, hsel c, Sum.inl.injEq,
          Prod.mk.injEq] at hh
        exact hh.1.symm
  have htry : ∀ c r2 c3, get_try_selenium sel avail isLast c = Sum.inl (r2, c3) →
      r2 = Except.error () := by
    intro c r2 c3 hh
    cases avail with
    | false =>
      simp only [get_try_selenium, Bool.false_eq_true, if_false] at hh
      exact hexc _ _ _ hh
    | true =>
      simp only [get_try_selenium, if_true, hsel c] at hh
      exact hexc _ _ _ hh
  unfold session_get_step at h
  cases htr : t attempt with
  | exn =>
    rw [htr] at h
    dsimp only at h
    exact hexc _ _ _ h
  | resp status body marker =>
    rw [htr] at h
    dsimp only at h
    have hstatus : status ≠ 200 := ht status body marker htr
    split_ifs at h <;>
      first
        | exact htry _ _ _ h
        | (simp only [Sum.inl.injEq, Prod.mk.injEq] at h
           exact absurd (by assumption) hstatus)
        | simp at h

theorem session_get_go_fails (t : Nat → TransportResult)
    (sel : Nat → Option String) (avail : Bool)
    (hsel : ∀ k, sel k = none)
    (ht : ∀ a status body marker, t a = TransportResult.resp status body marker →
      status ≠ 200) :
    ∀ fuel attempt cnt,
      (session_get_go t sel avail fuel attempt cnt).1 = Except.error () := by
  intro fuel
  induction fuel with
  | zero => intro attempt cnt; rfl
  | succ f ih =>
    intro attempt cnt
    rw [session_get_go]
    cases hstep : session_get_step t sel avail (f = 0) attempt cnt with
    | inl r =>
      obtain ⟨res, c2⟩ := r
      have := session_get_step_no_ok t sel avail (f = 0) attempt cnt hsel
        (ht attempt) res c2 hstep
      simpa using this
    | inr c =>
      exact ih (attempt + 1) c

/-- C3 counterexample: with a transport that reports a Cloudflare challenge
on every attempt and a fallback that always fails, one call to
`ScrapingSession.get` invokes the selenium fallback six times — once per
challenge-detecting attempt plus once more in the final exception handler —
not at most once. -/
theorem fallback_more_than_once_cex :
    (session_get cex_transport cex_selenium true).2 = 6 ∧
    ¬ (session_get cex_transport cex_selenium true).2 ≤ 1 := by
  constructor
  · decide
  · decide

/-- C3 amended: one call to `ScrapingSession.get` invokes the heavier
selenium fallback at most `RETRIES + 1` (= 6) times — up to once per
challenge-detecting attempt plus once in the final exception handler — and
when every fallback invocation fails and the transport never succeeds, the
call as a whole fails (the final exception propagates to the caller). -/
theorem fallback_bound_and_failure :
    (∀ (t : Nat → TransportResult) (sel : Nat → Option String) (avail : Bool),
      (session_get t sel avail).2 ≤ RETRIES + 1) ∧
    (∀ (t : Nat → TransportResult) (sel : Nat → Option String) (avail : Bool),
      (∀ k, sel k = none) →
      (∀ a status body marker, t a = TransportResult.resp status body marker →
        status ≠ 200) →
      (session_get t sel avail).1 = Except.error ()) := by
  constructor
  · intro t sel avail
    have := session_get_go_count_bound t sel avail RETRIES 0 0
    unfold session_get
    omega
  · intro t sel avail hsel ht
    exact session_get_go_fails t sel avail hsel ht RETRIES 0 0

/-- Witness for the amended C3 statement on the always-challenged fixture. -/
theorem fallback_bound_and_failure_witness :
    (session_get cex_transport cex_selenium true).1 = Except.error () :=
  fallback_bound_and_failure.2 cex_transport cex_selenium true (fun _ => rfl)
    (fun a status body marker h => by
      simp only [cex_transport, TransportResult.resp.injEq] at h
      omega)

/-- C6: `fetch` never lets an exception escape: whatever the transport and
fallback do, the caller receives a value — the page body on success of the
underlying `get`, and `None` when it raised. -/
theorem fetch_never_raises (t : Nat → TransportResult) (sel : Nat → Option String)
    (avail : Bool) :
    (∃ body, fetch t sel avail = some body ∧
      (session_get t sel avail).1 = Except.ok body) ∨
    (fetch t sel avail = none ∧ (session_get t sel avail).1 = Except.error ()) := by
  unfold fetch
  cases h : (session_get t sel avail).1 with
  | ok body => exact Or.inl ⟨body, rfl, rfl⟩
  | error e => exact Or.inr ⟨rfl, rfl⟩

/-! ### Claim theorems: dedup, stage order, processing order (C4, C5, C9) -/

theorem mem_dedupFirstAux (x : String) : ∀ (l seen : List String),
    x ∈ dedupFirstAux seen l ↔ (x ∈ l ∧ x ∉ seen) := by
  intro l
  induction l with
  | nil => intro seen; simp [dedupFirstAux]
  | cons a as ih =>
    intro seen
    rw [dedupFirstAux]
    by_cases h : a ∈ seen
    · rw [if_pos h, ih]
      constructor
      · exact fun hx => ⟨List.mem_cons_of_mem a hx.1, hx.2⟩
      · rintro ⟨h1, h2⟩
        rcases List.mem_cons.mp h1 with rfl | h3
        · exact absurd h h2
        · exact ⟨h3, h2⟩
    · rw [if_neg h]
      simp only [List.mem_cons, ih, List.mem_cons, not_or]
      by_cases hx : x = a
      · subst hx; simp [h]
      · simp [hx]

theorem nodup_dedupFirstAux : ∀ (l seen : List String),
    (dedupFirstAux seen l).Nodup := by
  intro l
  induction l with
  | nil => intro seen; simp [dedupFirstAux]
  | cons a as ih =>
    intro seen
    rw [dedupFirstAux]
    by_cases h : a ∈ seen
    · rw [if_pos h]; exact ih seen
    · rw [if_neg h]
      rw [List.nodup_cons]
      refine ⟨fun hmem => ?_, ih (a :: seen)⟩
      exact ((mem_dedupFirstAux a as (a :: seen)).mp hmem).2 (List.mem_cons_self a seen)

theorem count_dedupFirst_eq_one (l : List String) (x : String) (hx : x ∈ l) :
    (dedupFirst l).count x = 1 := by
  have hnd : (dedupFirst l).Nodup := nodup_dedupFirstAux l []
  have hm : x ∈ dedupFirst l := (mem_dedupFirstAux x l []).mpr ⟨hx, by simp⟩
  exact List.count_eq_one_of_mem hnd hm

theorem py_sorted_perm (l : List String) : (py_sorted l).Perm l :=
  List.perm_insertionSort _ l

theorem mem_py_sorted (l : List String) (x : String) : x ∈ py_sorted l ↔ x ∈ l :=
  (py_sorted_perm l).mem_iff

/-- C4: every slug discovered during a run — however many source records it
appears in across the home list and the ongoing pages — triggers exactly one
AnimeDetail fetch: the trace contains the `anime` event for it exactly once. -/
theorem anime_fetch_once_per_slug (homeItems : List Item)
    (ongoingOracle : Nat → Option (List Item)) (detail : String → Option AnimeDetail)
    (s : String)
    (hs : s ∈ collected_slugs (scrape_ongoing_pages ongoingOracle defaultMaxPages)
      homeItems) :
    (run_all_trace homeItems ongoingOracle detail).count (FetchEvent.anime s) = 1 := by
  unfold run_all_trace
  simp only [List.count_cons, List.count_append]
  have hpages : ((scrape_ongoing_pages_fetched ongoingOracle defaultMaxPages).map
      FetchEvent.ongoingPage).count (FetchEvent.anime s) = 0 := by
    rw [List.count_eq_zero]
    simp [List.mem_map]
  have heps : ((ep_queue_list detail (slugs_list
      (scrape_ongoing_pages ongoingOracle defaultMaxPages) homeItems)).map
      FetchEvent.episode).count (FetchEvent.anime s) = 0 := by
    rw [List.count_eq_zero]
    simp [List.mem_map]
  have hanime : ((slugs_list (scrape_ongoing_pages ongoingOracle defaultMaxPages)
      homeItems).map FetchEvent.anime).count (FetchEvent.anime s) = 1 := by
    rw [List.count_map_of_injective _ FetchEvent.anime
      (fun a b hab => FetchEvent.anime.inj hab)]
    unfold slugs_list
    rw [(py_sorted_perm _).count_eq]
    exact count_dedupFirst_eq_one _ s hs
  simp [hpages, heps, hanime]

/-- Witness for C4 on a concrete run where slug `a` is discovered both from
the ongoing pages and from the home list. -/
theorem anime_fetch_once_per_slug_witness :
    (run_all_trace [cex_item_a] cex_ongoing_oracle cex_detail).count
      (FetchEvent.anime "a") = 1 :=
  anime_fetch_once_per_slug [cex_item_a] cex_ongoing_oracle cex_detail "a" (by decide)

theorem run_all_trace_eq (homeItems : List Item)
    (ongoingOracle : Nat → Option (List Item)) (detail : String → Option AnimeDetail) :
    run_all_trace homeItems ongoingOracle detail =
      run_all_front homeItems ongoingOracle detail ++
        (ep_queue_list detail (slugs_list
          (scrape_ongoing_pages ongoingOracle defaultMaxPages) homeItems)).map
          FetchEvent.episode := by
  simp [run_all_trace, run_all_front]

theorem no_episode_in_front (homeItems : List Item)
    (ongoingOracle : Nat → Option (List Item)) (detail : String → Option AnimeDetail)
    (se : String) :
    FetchEvent.episode se ∉ run_all_front homeItems ongoingOracle detail := by
  simp [run_all_front, List.mem_append, List.mem_map, List.mem_cons]

theorem ep_queue_mem_aux (detail : String → Option AnimeDetail) (x : String) :
    ∀ (l acc : List String),
      x ∈ l.foldl (fun acc slug =>
        match detail slug with
        | some ad => acc ++ minedEpisodeSlugs ad
        | none => acc) acc →
      x ∈ acc ∨ ∃ s, s ∈ l ∧ ∃ ad, detail s = some ad ∧ x ∈ minedEpisodeSlugs ad := by
  intro l
  induction l with
  | nil => intro acc h; exact Or.inl h
  | cons s l ih =>
    intro acc h
    rw [List.foldl_cons] at h
    rcases ih _ h with hacc | ⟨s2, hs2, ad, had, hm⟩
    · cases hd : detail s with
      | none =>
        rw [hd] at hacc
        exact Or.inl hacc
      | some ad =>
        rw [hd] at hacc
        rcases List.mem_append.mp hacc with h1 | h2
        · exact Or.inl h1
        · exact Or.inr ⟨s, List.mem_cons_self s l, ad, hd, h2⟩
    · exact Or.inr ⟨s2, List.mem_cons_of_mem s hs2, ad, had, hm⟩

theorem ep_queue_mem (detail : String → Option AnimeDetail) (slugs : List String)
    (x : String) (hx : x ∈ ep_queue detail slugs) :
    ∃ s, s ∈ slugs ∧ ∃ ad, detail s = some ad ∧ x ∈ minedEpisodeSlugs ad := by
  rcases ep_queue_mem_aux detail x slugs [] hx with h | h
  · simp at h
  · exact h

/-- C5: every EpisodeDetail fetch in a run comes after every AnimeDetail
fetch (anime details, including those discovered from any ongoing page, are
fully drained before the first episode fetch), every fetched episode slug
was mined from a successfully extracted AnimeDetail record whose own fetch
is in the trace, and episode processing discovers no further work (the trace
ends with the episode fetches). -/
theorem episodes_after_all_anime (homeItems : List Item)
    (ongoingOracle : Nat → Option (List Item)) (detail : String → Option AnimeDetail) :
    (∀ i j sa se,
      (run_all_trace homeItems ongoingOracle detail).get? i =
        some (FetchEvent.anime sa) →
      (run_all_trace homeItems ongoingOracle detail).get? j =
        some (FetchEvent.episode se) →
      i < j) ∧
    (∀ se, FetchEvent.episode se ∈ run_all_trace homeItems ongoingOracle detail →
      ∃ s ad, detail s = some ad ∧
        FetchEvent.anime s ∈ run_all_trace homeItems ongoingOracle detail ∧
        se ∈ minedEpisodeSlugs ad) := by
  constructor
  · intro i j sa se hi hj
    rw [run_all_trace_eq] at hi hj
    have hilt : i < (run_all_front homeItems ongoingOracle detail).length := by
      by_contra hcon
      push_neg at hcon
      rw [List.get?_append_right hcon] at hi
      have hmem := List.get?_mem hi
      simp [List.mem_map] at hmem
    have hjge : (run_all_front homeItems ongoingOracle detail).length ≤ j := by
      by_contra hcon
      push_neg at hcon
      rw [List.get?_append hcon] at hj
      exact no_episode_in_front homeItems ongoingOracle detail se (List.get?_mem hj)
    omega
  · intro se hse
    rw [run_all_trace_eq] at hse
    rcases List.mem_append.mp hse with hin | hin
    · exact absurd hin (no_episode_in_front homeItems ongoingOracle detail se)
    · rw [List.mem_map] at hin
      obtain ⟨s0, hs0, heq⟩ := hin
      cases heq
      have h1 : se ∈ (dedupFirst (ep_queue detail (slugs_list
          (scrape_ongoing_pages ongoingOracle defaultMaxPages) homeItems))).filter
          (fun s => !s.isEmpty) := (mem_py_sorted _ _).mp hs0
      have h2 := List.mem_of_mem_filter h1
      have h3 : se ∈ ep_queue detail (slugs_list
          (scrape_ongoing_pages ongoingOracle defaultMaxPages) homeItems) :=
        ((mem_dedupFirstAux se _ []).mp h2).1
      obtain ⟨s, hsslugs, ad, had, hmem⟩ := ep_queue_mem _ _ _ h3
      refine ⟨s, ad, had, ?_, hmem⟩
      rw [run_all_trace_eq]
      refine List.mem_append.mpr (Or.inl ?_)
      simp only [run_all_front, List.mem_cons, List.mem_append, List.mem_map]
      right
      right
      right
      right
      exact ⟨s, hsslugs, rfl⟩

/-- Witness for the stage-order part of C5 on a one-anime, three-episode
fixture: the AnimeDetail fetch (index 6) precedes an EpisodeDetail fetch
(index 7). -/
theorem episodes_after_all_anime_witness : (6 : Nat) < 7 :=
  (episodes_after_all_anime [] cex_ongoing_oracle cex_detail).1 6 7 "a" "e1"
    (by decide) (by decide)

/-- C9 counterexample: slugs are discovered in the order `b`, `a` (the order
of the ongoing listing), but anime details are processed in the order `a`,
`b`: processing order is sorted order, not insertion (FIFO) order. -/
theorem processing_order_not_fifo_cex :
    dedupFirst (collected_slugs [cex_item_b, cex_item_a] []) = ["b", "a"] ∧
    slugs_list [cex_item_b, cex_item_a] [] = ["a", "b"] ∧
    (["a", "b"] : List String) ≠ ["b", "a"] := by
  refine ⟨by decide, by decide, by decide⟩

/-- C9 amended: within each stage the work items are processed in ascending
lexicographic order of their id — `sorted(slugs)` and `sorted(ep_queue)` —
independent of discovery order; the processed set is exactly the set of
distinct discovered ids. -/
theorem charListLe_trans : ∀ a b c, charListLe a b = true → charListLe b c = true →
    charListLe a c = true := by
  intro a
  induction a with
  | nil => intro b c h1 h2; rfl
  | cons x xs ih =>
    intro b c h1 h2
    cases b with
    | nil => simp [charListLe] at h1
    | cons y ys =>
      cases c with
      | nil => simp [charListLe] at h2
      | cons z zs =>
        simp only [charListLe] at h1 h2 ⊢
        split_ifs at h1 h2 ⊢ <;>
          first
            | rfl
            | omega
            | exact ih ys zs h1 h2
            | simp_all
            | (exfalso; omega)

theorem charListLe_total : ∀ a b, charListLe a b = true ∨ charListLe b a = true := by
  intro a
  induction a with
  | nil => intro b; exact Or.inl rfl
  | cons x xs ih =>
    intro b
    cases b with
    | nil => exact Or.inr rfl
    | cons y ys =>
      simp only [charListLe]
      by_cases h1 : x.toNat < y.toNat
      · left; rw [if_pos h1]
      · by_cases h2 : y.toNat < x.toNat
        · right; rw [if_pos h2]
        · rw [if_neg h1, if_neg h2, if_neg h2, if_neg h1]
          exact ih ys

theorem processing_order_sorted :
    (∀ ongoing home, List.Sorted (fun a b : String => pyStrLe a b = true)
        (slugs_list ongoing home) ∧
      (slugs_list ongoing home).Perm
        (dedupFirst (collected_slugs ongoing home))) ∧
    (∀ (detail : String → Option AnimeDetail) (slugs : List String),
      List.Sorted (fun a b : String => pyStrLe a b = true)
        (ep_queue_list detail slugs)) := by
  haveI htot : IsTotal String (fun a b : String => pyStrLe a b = true) :=
    ⟨fun a b => charListLe_total a.data b.data⟩
  haveI htr : IsTrans String (fun a b : String => pyStrLe a b = true) :=
    ⟨fun a b c => charListLe_trans a.data b.data c.data⟩
  constructor
  · intro ongoing home
    exact ⟨List.sorted_insertionSort _ _, List.perm_insertionSort _ _⟩
  · intro detail slugs
    exact List.sorted_insertionSort _ _

end Scraper
